import Mathlib

/-!
Shallow embedding of the signal-processing core of the Databeats-Coderush
repository: the `EEGPreprocessor` pipeline (`lib/preprocessing.ts`), the
feature extraction of `ONNXModelInference.prepareInput`
(`lib/onnx-inference.ts`), the `SpectrogramGenerator.generateSpectrogram`
short-time Fourier transform, and the band-power aggregation of
`hooks/use-spectrogram.ts`.  JavaScript numbers are modelled as real
numbers (`ℝ`); discrete quantities (lengths, indices, window sizes,
sampling rates) as `ℕ`/`ℤ`, and exactly-representable axis values as `ℚ`.
JavaScript division by zero yields `NaN`/`Infinity`, which `ℝ` cannot
represent; in this embedding `x / 0 = 0`, and every place where the source
can divide by zero is called out explicitly in the theorems below.
-/

open Real

namespace Coderush

/-- Arithmetic mean of a list, `data.reduce((s,v) => s+v, 0) / data.length`
as it appears throughout the source.  For an empty list the source yields
`0/0 = NaN`; here it is `0`. -/
noncomputable def listMean (data : List ℝ) : ℝ := data.sum / data.length

/-- `Math.max(...l)` for a non-empty list `l`.  JavaScript returns
`-Infinity` on an empty spread, which `ℝ` cannot represent; the claims
only concern non-empty buffers, and the `[]` case is given a junk value. -/
def jsMax : List ℝ → ℝ
  | [] => 0
  | x :: xs => xs.foldl max x

/-- `Math.min(...l)` for a non-empty list `l` (junk value on `[]`,
as for `jsMax`). -/
def jsMin : List ℝ → ℝ
  | [] => 0
  | x :: xs => xs.foldl min x

/-- `EEGPreprocessor.removeDCOffset`: subtract the mean from every sample. -/
noncomputable def removeDCOffset (data : List ℝ) : List ℝ :=
  data.map fun v => v - listMean data

/-- Start of the moving-average window of `EEGPreprocessor.bandpassFilter`
at output index `i`: `Math.max(0, i - Math.floor(windowSize / 2))` with
`windowSize = Math.floor(sfreq / 10)`.  Truncated `ℕ` subtraction matches
the `max(0, ·)` of the source. -/
def bpStart (sfreq i : ℕ) : ℕ := i - sfreq / 10 / 2

/-- End of the moving-average window of `EEGPreprocessor.bandpassFilter`
at output index `i`: `Math.min(data.length, i + Math.floor(windowSize / 2))`. -/
def bpEnd (len sfreq i : ℕ) : ℕ := min len (i + sfreq / 10 / 2)

/-- `EEGPreprocessor.bandpassFilter`: a centred moving average with window
width `Math.floor(sfreq / 10)`, clamped at the buffer edges.  The
`lowCutoff`/`highCutoff` parameters are accepted and ignored, exactly as in
the source.  When the window is empty (`bpEnd = bpStart`) the source
computes `0/0 = NaN`; here the entry is `0`. -/
noncomputable def bandpassFilter (data : List ℝ) (sfreq : ℕ)
    (_lowCutoff : ℝ := 1) (_highCutoff : ℝ := 50) : List ℝ :=
  (List.range data.length).map fun i =>
    (∑ j in Finset.Ico (bpStart sfreq i) (bpEnd data.length sfreq i), data.getD j 0) /
      ((bpEnd data.length sfreq i - bpStart sfreq i : ℕ) : ℝ)

/-- `EEGPreprocessor.normalize`: divide every sample by
`Math.max(...data.map(Math.abs))`.  The source performs this division
unconditionally; when the maximum is `0` it divides by zero (`0/0 = NaN`
in JavaScript, `0` here). -/
noncomputable def normalize (data : List ℝ) : List ℝ :=
  data.map fun v => v / jsMax (data.map fun x => |x|)

/-- `EEGPreprocessor.preprocess`: DC-offset removal, then the placeholder
bandpass filter, then amplitude normalization.  The source has no error
branch anywhere in this pipeline: the function is total. -/
noncomputable def preprocess (data : List ℝ) (sfreq : ℕ) : List ℝ :=
  normalize (bandpassFilter (removeDCOffset data) sfreq)

/-- Start of the `k`-th time-domain window of
`ONNXModelInference.prepareInput` (with `k = i - 64`):
`Math.floor(((i - 64) / 64) * data.length)`.  For natural `k` and `N`,
`⌊(k / 64) * N⌋ = k * N / 64` in truncated natural division. -/
def windowStart (N k : ℕ) : ℕ := k * N / 64

/-- End of the `k`-th time-domain window of
`ONNXModelInference.prepareInput`:
`Math.min(windowStart + Math.floor(data.length / 64), data.length)`. -/
def windowEnd (N k : ℕ) : ℕ := min (windowStart N k + N / 64) N

/-- Entry `i` of the 128-element feature vector built by
`ONNXModelInference.prepareInput`: statistical features at indices 0–5,
cosine-correlation features with the hard-coded 250 Hz reference rate at
indices 6–63, and windowed means at indices 64–127.  When a window is
empty the source computes `0/0 = NaN`; here the entry is `0`. -/
noncomputable def featureAt (data : List ℝ) (i : ℕ) : ℝ :=
  if i = 0 then listMean data
  else if i = 1 then
    Real.sqrt ((data.map fun v => (v - listMean data) ^ 2).sum / data.length)
  else if i = 2 then (data.map fun v => (v - listMean data) ^ 2).sum / data.length
  else if i = 3 then jsMin data
  else if i = 4 then jsMax data
  else if i = 5 then jsMax data - jsMin data
  else if i < 64 then
    (∑ j in Finset.range data.length,
      Real.cos (2 * π * (((i : ℝ) - 6) / 58 * 50) * j / 250) * data.getD j 0) /
      data.length
  else if i < 128 then
    (∑ j in Finset.Ico (windowStart data.length (i - 64)) (windowEnd data.length (i - 64)),
      data.getD j 0) /
      ((windowEnd data.length (i - 64) - windowStart data.length (i - 64) : ℕ) : ℝ)
  else 0

/-- `ONNXModelInference.prepareInput`: the 128-element feature vector,
`new Float32Array(128)` filled entry by entry. -/
noncomputable def prepareInput (data : List ℝ) : List ℝ :=
  (List.range 128).map (featureAt data)

/-- The `EEGData` record of `types/eeg` as consumed by
`ONNXModelInference.predict`: the sample buffer and its sampling rate
(the channel label and duration play no role in the core). -/
structure EEGData where
  data : List ℝ
  sfreq : ℝ

/-- The feature-preparation step of `ONNXModelInference.predict`:
`prepareInput(eegData.data)`.  The sampling rate stored in the record is
never read. -/
noncomputable def predictFeatures (eegData : EEGData) : List ℝ :=
  prepareInput eegData.data

/-- The `SpectrogramData` record of `types/eeg`: frequency axis, time axis
and the power matrix indexed `[frequency bin][time window]`.  The axis
values produced by the source are exact rationals
(`i * sfreq / windowSize`, `i * hopSize / sfreq`) and are modelled in `ℚ`;
the power entries involve transcendental functions and live in `ℝ`. -/
structure SpectrogramData where
  frequencies : List ℚ
  times : List ℚ
  power : List (List ℝ)

/-- Failure of `SpectrogramGenerator.generateSpectrogram` at the
JavaScript level.  The source contains no explicit error handling; the
only way it can fail is the runtime `RangeError` thrown by
`Array(numWindows)` when `numWindows` is negative (or not a valid length,
as happens when `hopSize = 0` makes `numWindows` infinite or `NaN`). -/
inductive JsError
  | rangeError
deriving DecidableEq

/-- `hopSize = Math.floor(windowSize * (1 - overlap))` of
`SpectrogramGenerator.generateSpectrogram`. -/
def hopSize (windowSize : ℕ) (overlap : ℚ) : ℤ :=
  ⌊(windowSize : ℚ) * (1 - overlap)⌋

/-- `numWindows = Math.floor((data.length - windowSize) / hopSize) + 1`.
`Math.floor` of a possibly negative quotient is floor division
(`Int.fdiv`), not truncation. -/
def numWindowsZ (len windowSize hop : ℕ) : ℤ :=
  Int.fdiv ((len : ℤ) - windowSize) hop + 1

/-- `freqBins = Math.floor(windowSize / 2) + 1`. -/
def freqBins (windowSize : ℕ) : ℕ := windowSize / 2 + 1

/-- The Hann-window step of `generateSpectrogram`:
`windowData.map((val, i) => val * (0.5 - 0.5 * cos(2π i / (windowSize - 1))))`. -/
noncomputable def hannWindowed (windowData : List ℝ) (windowSize : ℕ) : List ℝ :=
  windowData.enum.map fun p =>
    p.2 * (0.5 - 0.5 * Real.cos (2 * π * p.1 / ((windowSize : ℝ) - 1)))

/-- Real part of the direct DFT sum of `generateSpectrogram`:
`real += windowed[n] * cos(-2π k n / windowSize)` for `n` below
`windowed.length`. -/
noncomputable def dftReal (windowed : List ℝ) (windowSize k : ℕ) : ℝ :=
  ∑ n in Finset.range windowed.length,
    windowed.getD n 0 * Real.cos (-(2 * π * k * n) / windowSize)

/-- Imaginary part of the direct DFT sum of `generateSpectrogram`. -/
noncomputable def dftImag (windowed : List ℝ) (windowSize k : ℕ) : ℝ :=
  ∑ n in Finset.range windowed.length,
    windowed.getD n 0 * Real.sin (-(2 * π * k * n) / windowSize)

/-- Entry `[k][w]` of the power matrix of `generateSpectrogram`:
slice `[w * hopSize, w * hopSize + windowSize)`, Hann window, direct DFT,
then `Math.log10(real² + imag² + 1e-10)`. -/
noncomputable def powerEntry (data : List ℝ) (windowSize hop k w : ℕ) : ℝ :=
  Real.logb 10
    (dftReal (hannWindowed ((data.drop (w * hop)).take windowSize) windowSize)
        windowSize k *
      dftReal (hannWindowed ((data.drop (w * hop)).take windowSize) windowSize)
        windowSize k +
      dftImag (hannWindowed ((data.drop (w * hop)).take windowSize) windowSize)
        windowSize k *
      dftImag (hannWindowed ((data.drop (w * hop)).take windowSize) windowSize)
        windowSize k + 1e-10)

/-- `SpectrogramGenerator.generateSpectrogram`: hop size, window count,
frequency and time axes, and the power matrix.  The source performs no
input validation; the error branches below model the JavaScript
`RangeError` raised by `Array(numWindows)` when `numWindows` is negative,
and the divergence/`RangeError` of the degenerate case `hopSize ≤ 0`
(division by zero makes `numWindows` infinite or `NaN`).  In every other
case the source returns a spectrogram, even when `data` is shorter than
`windowSize`. -/
noncomputable def generateSpectrogram (data : List ℝ) (sfreq : ℕ)
    (windowSize : ℕ := 256) (overlap : ℚ := 1/2) : Except JsError SpectrogramData :=
  if hopSize windowSize overlap ≤ 0 then .error .rangeError
  else if numWindowsZ data.length windowSize (hopSize windowSize overlap).toNat < 0 then
    .error .rangeError
  else
    let hop := (hopSize windowSize overlap).toNat
    let numWindows := (numWindowsZ data.length windowSize hop).toNat
    .ok
      { frequencies := (List.range (freqBins windowSize)).map
          fun i : ℕ => (i : ℚ) * sfreq / windowSize
        times := (List.range numWindows).map fun i : ℕ => (i : ℚ) * hop / sfreq
        power := (List.range (freqBins windowSize)).map fun k =>
          (List.range numWindows).map fun w => powerEntry data windowSize hop k w }

/-- The indices of the frequency bins falling in the inclusive band
`[minFreq, maxFreq]`, as computed by `getBandPower` in
`hooks/use-spectrogram.ts`. -/
def bandIndices (frequencies : List ℚ) (minFreq maxFreq : ℚ) : List ℕ :=
  ((frequencies.enum.filter fun p => decide (minFreq ≤ p.2 ∧ p.2 ≤ maxFreq)).map
    Prod.fst)

/-- `getBandPower` of `hooks/use-spectrogram.ts`: average of all power
values in the rows whose frequency lies in `[minFreq, maxFreq]`, flattened
across time windows; `0` when no bin matches.  When bins match but there
are zero time windows the source computes `0/0 = NaN`; here it is `0`. -/
noncomputable def getBandPower (s : SpectrogramData) (minFreq maxFreq : ℚ) : ℝ :=
  if (bandIndices s.frequencies minFreq maxFreq).isEmpty then 0
  else
    (((s.power.enum.filter fun p =>
        decide (p.1 ∈ bandIndices s.frequencies minFreq maxFreq)).map
      Prod.snd).flatten).sum /
    (((s.power.enum.filter fun p =>
        decide (p.1 ∈ bandIndices s.frequencies minFreq maxFreq)).map
      Prod.snd).flatten).length

/-- The five named band powers computed by `useSpectrogram`. -/
structure BandPowers where
  delta : ℝ
  theta : ℝ
  alpha : ℝ
  beta : ℝ
  gamma : ℝ

/-- The `frequencyBands` value of `useSpectrogram`: `getBandPower` at the
five fixed inclusive ranges. -/
noncomputable def frequencyBands (s : SpectrogramData) : BandPowers where
  delta := getBandPower s (1/2) 4
  theta := getBandPower s 4 8
  alpha := getBandPower s 8 13
  beta := getBandPower s 13 30
  gamma := getBandPower s 30 100

/-! ## Helper lemmas -/

section PreprocessLemmas

theorem getD_replicate_zero (n j : ℕ) : (List.replicate n (0 : ℝ)).getD j 0 = 0 := by
  induction n generalizing j with
  | zero => simp [List.getD]
  | succ n ih =>
    cases j with
    | zero => simp [List.replicate_succ, List.getD]
    | succ j =>
      rw [List.replicate_succ, List.getD_cons_succ]
      exact ih j

theorem jsMax_replicate_zero (n : ℕ) : jsMax (List.replicate n (0 : ℝ)) = 0 := by
  cases n with
  | zero => rfl
  | succ n =>
    rw [List.replicate_succ, jsMax]
    induction n with
    | zero => rfl
    | succ n ih => rw [List.replicate_succ, List.foldl_cons, max_self]; exact ih

theorem removeDCOffset_replicate_zero (n : ℕ) :
    removeDCOffset (List.replicate n (0 : ℝ)) = List.replicate n 0 := by
  simp [removeDCOffset, listMean, List.map_replicate]

theorem bandpassFilter_replicate_zero (n sfreq : ℕ) :
    bandpassFilter (List.replicate n (0 : ℝ)) sfreq = List.replicate n 0 := by
  unfold bandpassFilter
  rw [List.length_replicate]
  have h : ∀ i ∈ List.range n,
      (∑ j in Finset.Ico (bpStart sfreq i) (bpEnd n sfreq i),
        (List.replicate n (0 : ℝ)).getD j 0) /
        ((bpEnd n sfreq i - bpStart sfreq i : ℕ) : ℝ) = 0 := by
    intro i _
    have : ∀ j ∈ Finset.Ico (bpStart sfreq i) (bpEnd n sfreq i),
        (List.replicate n (0 : ℝ)).getD j 0 = 0 := fun j _ => getD_replicate_zero n j
    rw [Finset.sum_congr rfl this]
    simp
  rw [List.map_congr_left h]
  simp [List.map_const']

theorem normalize_replicate_zero (n : ℕ) :
    normalize (List.replicate n (0 : ℝ)) = List.replicate n 0 := by
  simp [normalize, List.map_replicate]

theorem preprocess_replicate_zero (n sfreq : ℕ) :
    preprocess (List.replicate n (0 : ℝ)) sfreq = List.replicate n 0 := by
  unfold preprocess
  rw [removeDCOffset_replicate_zero, bandpassFilter_replicate_zero,
    normalize_replicate_zero]

end PreprocessLemmas

section MinMaxLemmas

theorem foldl_max_bounds (xs : List ℝ) :
    ∀ a : ℝ, a ≤ xs.foldl max a ∧ ∀ y ∈ xs, y ≤ xs.foldl max a := by
  induction xs with
  | nil => intro a; exact ⟨le_refl a, by simp⟩
  | cons x xs ih =>
    intro a
    have h := ih (max a x)
    refine ⟨le_trans (le_max_left a x) h.1, fun y hy => ?_⟩
    rcases List.mem_cons.mp hy with h1 | h1
    · subst h1; exact le_trans (le_max_right a y) h.1
    · exact h.2 y h1

theorem foldl_max_mem (xs : List ℝ) :
    ∀ a : ℝ, xs.foldl max a = a ∨ xs.foldl max a ∈ xs := by
  induction xs with
  | nil => intro a; exact Or.inl rfl
  | cons x xs ih =>
    intro a
    rcases ih (max a x) with h | h
    · rcases max_cases a x with ⟨he, _⟩ | ⟨he, _⟩
      · exact Or.inl (by rw [List.foldl_cons, h, he])
      · exact Or.inr (by rw [List.foldl_cons, h, he]; exact List.mem_cons_self x xs)
    · exact Or.inr (List.mem_cons_of_mem x h)

theorem foldl_min_bounds (xs : List ℝ) :
    ∀ a : ℝ, xs.foldl min a ≤ a ∧ ∀ y ∈ xs, xs.foldl min a ≤ y := by
  induction xs with
  | nil => intro a; exact ⟨le_refl a, by simp⟩
  | cons x xs ih =>
    intro a
    have h := ih (min a x)
    refine ⟨le_trans h.1 (min_le_left a x), fun y hy => ?_⟩
    rcases List.mem_cons.mp hy with h1 | h1
    · subst h1; exact le_trans h.1 (min_le_right a y)
    · exact h.2 y h1

theorem foldl_min_mem (xs : List ℝ) :
    ∀ a : ℝ, xs.foldl min a = a ∨ xs.foldl min a ∈ xs := by
  induction xs with
  | nil => intro a; exact Or.inl rfl
  | cons x xs ih =>
    intro a
    rcases ih (min a x) with h | h
    · rcases min_cases a x with ⟨he, _⟩ | ⟨he, _⟩
      · exact Or.inl (by rw [List.foldl_cons, h, he])
      · exact Or.inr (by rw [List.foldl_cons, h, he]; exact List.mem_cons_self x xs)
    · exact Or.inr (List.mem_cons_of_mem x h)

theorem mem_le_jsMax (l : List ℝ) (y : ℝ) (hy : y ∈ l) : y ≤ jsMax l := by
  cases l with
  | nil => exact absurd hy (List.not_mem_nil y)
  | cons x xs =>
    rcases List.mem_cons.mp hy with h1 | h1
    · exact h1 ▸ (foldl_max_bounds xs x).1
    · exact (foldl_max_bounds xs x).2 y h1

theorem jsMax_mem (l : List ℝ) (h : l ≠ []) : jsMax l ∈ l := by
  cases l with
  | nil => exact absurd rfl h
  | cons x xs =>
    rcases foldl_max_mem xs x with h1 | h1
    · rw [show jsMax (x :: xs) = xs.foldl max x from rfl, h1]
      exact List.mem_cons_self x xs
    · exact List.mem_cons_of_mem x h1

theorem jsMin_le_mem (l : List ℝ) (y : ℝ) (hy : y ∈ l) : jsMin l ≤ y := by
  cases l with
  | nil => exact absurd hy (List.not_mem_nil y)
  | cons x xs =>
    rcases List.mem_cons.mp hy with h1 | h1
    · exact h1 ▸ (foldl_min_bounds xs x).1
    · exact (foldl_min_bounds xs x).2 y h1

theorem jsMin_mem (l : List ℝ) (h : l ≠ []) : jsMin l ∈ l := by
  cases l with
  | nil => exact absurd rfl h
  | cons x xs =>
    rcases foldl_min_mem xs x with h1 | h1
    · rw [show jsMin (x :: xs) = xs.foldl min x from rfl, h1]
      exact List.mem_cons_self x xs
    · exact List.mem_cons_of_mem x h1

end MinMaxLemmas

section MeanLemmas

theorem sum_map_sub_const (data : List ℝ) (c : ℝ) :
    (data.map fun v => v - c).sum = data.sum - data.length * c := by
  induction data with
  | nil => simp
  | cons x xs ih => simp [ih]; ring

theorem removeDCOffset_mean (data : List ℝ) (hne : data ≠ []) :
    listMean (removeDCOffset data) = 0 := by
  have hlen : (data.length : ℝ) ≠ 0 :=
    Nat.cast_ne_zero.mpr (List.length_pos.mpr hne).ne'
  unfold listMean removeDCOffset
  rw [List.length_map, sum_map_sub_const]
  unfold listMean
  field_simp

theorem preprocess_length (data : List ℝ) (sfreq : ℕ) :
    (preprocess data sfreq).length = data.length := by
  simp [preprocess, normalize, bandpassFilter, removeDCOffset]

end MeanLemmas

section FeatureLemmas

theorem prepareInput_getD (data : List ℝ) (i : ℕ) (h : i < 128) :
    (prepareInput data).getD i 0 = featureAt data i := by
  unfold prepareInput
  rw [List.getD_eq_getElem?_getD, List.getElem?_map, List.getElem?_range h]
  rfl

end FeatureLemmas

section SpectrogramLemmas

theorem generateSpectrogram_ok (data : List ℝ) (sfreq windowSize : ℕ) (overlap : ℚ)
    (h1 : 0 < hopSize windowSize overlap)
    (h2 : 0 ≤ numWindowsZ data.length windowSize (hopSize windowSize overlap).toNat) :
    generateSpectrogram data sfreq windowSize overlap = .ok
      { frequencies := (List.range (freqBins windowSize)).map
          fun i : ℕ => (i : ℚ) * sfreq / windowSize
        times := (List.range (numWindowsZ data.length windowSize
            (hopSize windowSize overlap).toNat).toNat).map
          fun i : ℕ => (i : ℚ) * (hopSize windowSize overlap).toNat / sfreq
        power := (List.range (freqBins windowSize)).map fun k =>
          (List.range (numWindowsZ data.length windowSize
              (hopSize windowSize overlap).toNat).toNat).map
            fun w => powerEntry data windowSize (hopSize windowSize overlap).toNat k w } := by
  unfold generateSpectrogram
  have hcond1 : ¬ hopSize windowSize overlap ≤ 0 := by omega
  have hcond2 : ¬ numWindowsZ data.length windowSize
      (hopSize windowSize overlap).toNat < 0 := by omega
  rw [if_neg hcond1, if_neg hcond2]

theorem numWindowsZ_nonneg (len w hop : ℕ) (h : w ≤ len) :
    0 ≤ numWindowsZ len w hop := by
  unfold numWindowsZ
  have := Int.fdiv_nonneg (a := (len : ℤ) - w) (b := (hop : ℤ)) (by omega) (by omega)
  omega

theorem numWindowsZ_toNat (len w hop : ℕ) (h : w ≤ len) :
    (numWindowsZ len w hop).toNat = (len - w) / hop + 1 := by
  unfold numWindowsZ
  rw [Int.fdiv_eq_ediv _ (by omega)]
  have hc : (len : ℤ) - w = ((len - w : ℕ) : ℤ) := by omega
  rw [hc]
  norm_cast

theorem windowSize_pos_of_hop (w : ℕ) (ov : ℚ) (h : 0 < hopSize w ov) : 0 < w := by
  rcases Nat.eq_zero_or_pos w with hw | hw
  · subst hw
    simp [hopSize] at h
  · exact hw

theorem hannWindowed_length (l : List ℝ) (ws : ℕ) :
    (hannWindowed l ws).length = l.length := by
  simp [hannWindowed]

theorem hannWindowed_getD (l : List ℝ) (ws n : ℕ) (h : n < l.length) :
    (hannWindowed l ws).getD n 0 =
      l.getD n 0 * (0.5 - 0.5 * Real.cos (2 * π * n / ((ws : ℝ) - 1))) := by
  unfold hannWindowed
  rw [List.getD_eq_getElem?_getD, List.getElem?_map,
    show l.enum = l.enumFrom 0 from rfl, List.getElem?_enumFrom,
    List.getElem?_eq_getElem h]
  simp [List.getD_eq_getElem?_getD, List.getElem?_eq_getElem h]

theorem slice_length (data : List ℝ) (start ws : ℕ) (h : start + ws ≤ data.length) :
    ((data.drop start).take ws).length = ws := by
  rw [List.length_take, List.length_drop]
  omega

theorem slice_getD (data : List ℝ) (start ws n : ℕ) (hn : n < ws) :
    ((data.drop start).take ws).getD n 0 = data.getD (start + n) 0 := by
  rw [List.getD_eq_getElem?_getD, List.getD_eq_getElem?_getD,
    List.getElem?_take_of_lt hn, List.getElem?_drop]

theorem start_add_window_le (len ws hop w : ℕ) (hlen : ws ≤ len)
    (hw : w < (numWindowsZ len ws hop).toNat) : w * hop + ws ≤ len := by
  rw [numWindowsZ_toNat len ws hop hlen] at hw
  have h1 : w ≤ (len - ws) / hop := by omega
  have h2 : w * hop ≤ ((len - ws) / hop) * hop := Nat.mul_le_mul_right hop h1
  have h3 : ((len - ws) / hop) * hop ≤ len - ws := Nat.div_mul_le_self _ _
  omega

end SpectrogramLemmas

section BandPowerLemmas

theorem mem_filter_enumFrom_fst (lo hi : ℚ) (fs : List ℚ) :
    ∀ (n m : ℕ),
      (m ∈ ((fs.enumFrom n).filter fun p => decide (lo ≤ p.2 ∧ p.2 ≤ hi)).map
        Prod.fst) ↔
        ∃ j, j < fs.length ∧ m = n + j ∧
          (lo ≤ fs.getD j 0 ∧ fs.getD j 0 ≤ hi) := by
  induction fs with
  | nil => intro n m; simp
  | cons f fs ih =>
    intro n m
    rw [List.enumFrom_cons]
    by_cases hp : lo ≤ f ∧ f ≤ hi
    · rw [List.filter_cons_of_pos (by simpa using hp), List.map_cons]
      simp only [List.mem_cons]
      rw [ih (n + 1)]
      constructor
      · rintro (rfl | ⟨j, hj, rfl, hP⟩)
        · exact ⟨0, by simp, by simp, by simpa using hp⟩
        · exact ⟨j + 1, by simpa using hj, by omega, by simpa using hP⟩
      · rintro ⟨j, hj, rfl, hP⟩
        cases j with
        | zero => left; simp
        | succ j =>
          right
          exact ⟨j, by simpa using hj, by omega, by simpa using hP⟩
    · rw [List.filter_cons_of_neg (by simpa using hp)]
      rw [ih (n + 1)]
      constructor
      · rintro ⟨j, hj, rfl, hP⟩
        exact ⟨j + 1, by simpa using hj, by omega, by simpa using hP⟩
      · rintro ⟨j, hj, rfl, hP⟩
        cases j with
        | zero => exact absurd (by simpa using hP) hp
        | succ j => exact ⟨j, by simpa using hj, by omega, by simpa using hP⟩

theorem mem_bandIndices (fs : List ℚ) (lo hi : ℚ) (m : ℕ) :
    m ∈ bandIndices fs lo hi ↔
      m < fs.length ∧ (lo ≤ fs.getD m 0 ∧ fs.getD m 0 ≤ hi) := by
  unfold bandIndices
  rw [show fs.enum = fs.enumFrom 0 from rfl, mem_filter_enumFrom_fst lo hi fs 0 m]
  constructor
  · rintro ⟨j, hj, hm, hP⟩
    have hjm : j = m := by omega
    subst hjm
    exact ⟨hj, hP⟩
  · rintro ⟨hm, hP⟩
    exact ⟨m, hm, by omega, hP⟩

theorem filter_enumFrom_zip (lo hi : ℚ) (Q : ℕ → Bool) :
    ∀ (fs : List ℚ) (ps : List (List ℝ)) (n : ℕ),
      ps.length = fs.length →
      (∀ j, j < fs.length →
        Q (n + j) = decide (lo ≤ fs.getD j 0 ∧ fs.getD j 0 ≤ hi)) →
      ((ps.enumFrom n).filter fun p => Q p.1).map Prod.snd =
        ((fs.zip ps).filter fun p => decide (lo ≤ p.1 ∧ p.1 ≤ hi)).map Prod.snd := by
  intro fs
  induction fs with
  | nil =>
    intro ps n hlen _
    have hps : ps = [] := List.length_eq_zero.mp (by simpa using hlen)
    subst hps
    simp
  | cons f fs ih =>
    intro ps n hlen hQ
    cases ps with
    | nil => simp at hlen
    | cons r ps =>
      rw [List.enumFrom_cons, List.zip_cons_cons]
      have hQ0 : Q n = decide (lo ≤ f ∧ f ≤ hi) := by
        have h := hQ 0 (by simp)
        simpa using h
      have hQ' : ∀ j, j < fs.length →
          Q ((n + 1) + j) = decide (lo ≤ fs.getD j 0 ∧ fs.getD j 0 ≤ hi) := by
        intro j hj
        have h := hQ (j + 1) (by simpa using hj)
        rw [show n + (j + 1) = (n + 1) + j by omega] at h
        simpa using h
      have hlen' : ps.length = fs.length := by simpa using hlen
      by_cases hp : lo ≤ f ∧ f ≤ hi
      · rw [@List.filter_cons_of_pos _ (fun p => Q p.1) (n, r)
            (List.enumFrom (n + 1) ps) (show Q n = true by
              rw [hQ0]; exact decide_eq_true hp),
          @List.filter_cons_of_pos _ (fun p => decide (lo ≤ p.1 ∧ p.1 ≤ hi))
            (f, r) (fs.zip ps) (decide_eq_true hp),
          List.map_cons, List.map_cons, ih ps (n + 1) hlen' hQ']
      · rw [@List.filter_cons_of_neg _ (fun p => Q p.1) (n, r)
            (List.enumFrom (n + 1) ps) (show ¬Q n = true by
              rw [hQ0]; simpa using hp),
          @List.filter_cons_of_neg _ (fun p => decide (lo ≤ p.1 ∧ p.1 ≤ hi))
            (f, r) (fs.zip ps) (by simpa using hp),
          ih ps (n + 1) hlen' hQ']

end BandPowerLemmas

/-! ## Claims -/

/-- C1: the claim says `condition` signals a `DegenerateSignalError` on a
buffer whose max-abs after DC removal and smoothing is zero, instead of
performing the normalization division.  The source has no error branch at
all: on 2500 zero samples at `samplingRate = 250` the normalization
divisor `Math.max(...map(abs))` is `0`, the division is performed anyway
(`0/0`, i.e. `NaN` in JavaScript, `0` in this embedding), and a full-length
buffer is returned. -/
theorem C1_zero_buffer_no_error :
    jsMax ((bandpassFilter (removeDCOffset (List.replicate 2500 (0:ℝ))) 250).map
      fun x => |x|) = 0 ∧
    preprocess (List.replicate 2500 (0:ℝ)) 250 = List.replicate 2500 0 := by
  constructor
  · rw [removeDCOffset_replicate_zero, bandpassFilter_replicate_zero,
      List.map_replicate]
    rw [abs_zero]
    exact jsMax_replicate_zero 2500
  · exact preprocess_replicate_zero 2500 250

/-- C10: in the smoothing step, the divisor `end - start` is nonzero at
every output index of a non-empty buffer exactly when
`Math.floor(samplingRate / 10) ≥ 2`, i.e. exactly when
`samplingRate ≥ 20`; for every `samplingRate < 20` the half-window is `0`,
every averaging window is empty, and every division is a division by
zero. -/
theorem C10_divisor_zero_iff (sfreq : ℕ) (data : List ℝ) (hne : data ≠ []) :
    ((∀ i < data.length, bpEnd data.length sfreq i - bpStart sfreq i ≠ 0) ↔
      2 ≤ sfreq / 10) ∧
    (2 ≤ sfreq / 10 ↔ 20 ≤ sfreq) ∧
    (sfreq < 20 → ∀ i < data.length, bpEnd data.length sfreq i - bpStart sfreq i = 0) := by
  have hlen : 0 < data.length := List.length_pos.mpr hne
  refine ⟨⟨fun h => ?_, fun h i hi => ?_⟩, by omega, fun h i hi => ?_⟩
  · have h0 := h 0 hlen
    unfold bpEnd bpStart at h0
    omega
  · unfold bpEnd bpStart
    omega
  · unfold bpEnd bpStart
    omega

/-- C6, counterexample: the buffer handed to the normalization step is the
output of the smoothing filter, and the edge-clamped moving average does
not preserve the zero mean produced by DC-offset removal.  On the buffer
`[1, -1]` at `samplingRate = 20` the pre-normalization buffer is `[1, 0]`,
whose mean is `1/2`, not `0` (and `1/2` is no floating-point rounding
artefact). -/
theorem C6_mean_not_zero :
    listMean (bandpassFilter (removeDCOffset [(1:ℝ), -1]) 20) = 1/2 ∧
    (1/2 : ℝ) ≠ 0 := by
  refine ⟨?_, by norm_num⟩
  have h1 : removeDCOffset [(1:ℝ), -1] = [(1:ℝ), -1] := by
    norm_num [removeDCOffset, listMean]
  rw [h1]
  have h2 : bandpassFilter [(1:ℝ), -1] 20 = [(1:ℝ), 0] := by
    norm_num [bandpassFilter, bpStart, bpEnd, List.range_succ,
      Finset.sum_Ico_eq_sum_range, Finset.sum_range_succ,
      List.getD_cons_zero, List.getD_cons_succ]
  rw [h2]
  norm_num [listMean]

/-- C6, amended: `condition` returns a buffer of the same length as the
input; the mean is `0` after DC-offset removal (but not, in general, after
the smoothing step that precedes normalization); and whenever the
normalization divisor is nonzero, every output value lies in `[-1, 1]`. -/
theorem C6_condition_bounds (data : List ℝ) (sfreq : ℕ) (hne : data ≠ []) :
    (preprocess data sfreq).length = data.length ∧
    listMean (removeDCOffset data) = 0 ∧
    (jsMax ((bandpassFilter (removeDCOffset data) sfreq).map fun x => |x|) ≠ 0 →
      ∀ y ∈ preprocess data sfreq, -1 ≤ y ∧ y ≤ 1) := by
  refine ⟨preprocess_length data sfreq, removeDCOffset_mean data hne, ?_⟩
  intro hm y hy
  unfold preprocess normalize at hy
  obtain ⟨v, hv, rfl⟩ := List.mem_map.mp hy
  have habs : |v| ≤ jsMax ((bandpassFilter (removeDCOffset data) sfreq).map fun x => |x|) :=
    mem_le_jsMax _ _ (List.mem_map_of_mem _ hv)
  have hm0 : 0 ≤ jsMax ((bandpassFilter (removeDCOffset data) sfreq).map fun x => |x|) :=
    le_trans (abs_nonneg v) habs
  have hmpos : 0 < jsMax ((bandpassFilter (removeDCOffset data) sfreq).map fun x => |x|) :=
    lt_of_le_of_ne hm0 (Ne.symm hm)
  have hq : |v / jsMax ((bandpassFilter (removeDCOffset data) sfreq).map fun x => |x|)| ≤ 1 := by
    rw [abs_div, abs_of_pos hmpos]
    exact (div_le_one hmpos).mpr habs
  exact abs_le.mp hq

/-- Witness for the amended C6 at the buffer `[1, -1]` and
`samplingRate = 20`. -/
theorem C6_condition_bounds_witness :
    ([(1:ℝ), -1] ≠ []) ∧
    ((preprocess [(1:ℝ), -1] 20).length = ([(1:ℝ), -1]).length ∧
      listMean (removeDCOffset [(1:ℝ), -1]) = 0 ∧
      (jsMax ((bandpassFilter (removeDCOffset [(1:ℝ), -1]) 20).map fun x => |x|) ≠ 0 →
        ∀ y ∈ preprocess [(1:ℝ), -1] 20, -1 ≤ y ∧ y ≤ 1)) :=
  ⟨by simp, C6_condition_bounds [(1:ℝ), -1] 20 (by simp)⟩

/-- C3: the claim says `analyze` signals `InsufficientSamplesError`
whenever the buffer is shorter than `windowSize`.  The source performs no
validation at all: with 255 samples, `windowSize = 256` and
`overlap = 0.5` it computes `numWindows = floor((255-256)/128)+1 = 0` and
silently returns a spectrogram with an empty time axis (129 frequency
rows of zero columns) — no error is raised; only for even shorter buffers
(`numWindows < 0`) does it abort, and then with an untyped JavaScript
`RangeError` from `Array(numWindows)`, not the claimed typed error. -/
theorem C3_short_buffer_silent :
    ∃ s, generateSpectrogram (List.replicate 255 (0:ℝ)) 250 256 (1/2) = .ok s ∧
      s.times = [] ∧ s.frequencies.length = 129 := by
  have hhop : hopSize 256 (1/2) = 128 := by norm_num [hopSize]
  have h1 : 0 < hopSize 256 (1/2) := by rw [hhop]; norm_num
  have h3 : (numWindowsZ (List.replicate 255 (0:ℝ)).length 256
      (hopSize 256 (1/2)).toNat).toNat = 0 := by
    simp only [List.length_replicate]
    rw [hhop]
    decide
  have h2 : 0 ≤ numWindowsZ (List.replicate 255 (0:ℝ)).length 256
      (hopSize 256 (1/2)).toNat := by
    simp only [List.length_replicate]
    rw [hhop]
    decide
  refine ⟨_, generateSpectrogram_ok _ 250 256 (1/2) h1 h2, ?_, ?_⟩
  · simp only [h3, List.range_zero, List.map_nil]
  · simp only [List.length_map, List.length_range]
    norm_num [freqBins]

/-- C5: for valid inputs (`windowSize ≤ len`, positive hop, positive
sampling rate) `analyze` returns a spectrogram whose power matrix has one
row per frequency bin (`⌊windowSize/2⌋ + 1` of them) and one column per
time window (`⌊(len − windowSize)/hopSize⌋ + 1` of them), with a strictly
increasing frequency axis bounded by the Nyquist frequency
`samplingRate/2`; 2500 samples at 250 Hz with `windowSize = 256` and
`overlap = 0.5` give 129 bins, 18 windows and top frequency 125 Hz, and a
256-sample buffer gives a single window. -/
theorem C5_spectrogram_shape :
    (∀ (data : List ℝ) (sfreq windowSize : ℕ) (overlap : ℚ) (s : SpectrogramData),
      0 < sfreq → windowSize ≤ data.length → 0 < hopSize windowSize overlap →
      generateSpectrogram data sfreq windowSize overlap = .ok s →
      s.frequencies.length = windowSize / 2 + 1 ∧
      s.power.length = s.frequencies.length ∧
      (∀ row ∈ s.power, row.length = s.times.length) ∧
      s.times.length =
        (data.length - windowSize) / (hopSize windowSize overlap).toNat + 1 ∧
      s.frequencies.Pairwise (· < ·) ∧
      (∀ q ∈ s.frequencies, q ≤ (sfreq : ℚ) / 2)) ∧
    (∃ s, generateSpectrogram (List.replicate 2500 (0:ℝ)) 250 256 (1/2) = .ok s ∧
      s.frequencies.length = 129 ∧ s.times.length = 18 ∧
      s.frequencies.getD 128 0 = 125) ∧
    (∃ s, generateSpectrogram (List.replicate 256 (0:ℝ)) 250 256 (1/2) = .ok s ∧
      s.times.length = 1) := by
  refine ⟨?_, ?_, ?_⟩
  · intro data sfreq windowSize overlap s hsf hlen hhop hok
    have hw : 0 < windowSize := windowSize_pos_of_hop windowSize overlap hhop
    have hwQ : (0 : ℚ) < windowSize := by exact_mod_cast hw
    have h2 : 0 ≤ numWindowsZ data.length windowSize (hopSize windowSize overlap).toNat :=
      numWindowsZ_nonneg _ _ _ hlen
    rw [generateSpectrogram_ok data sfreq windowSize overlap hhop h2] at hok
    have hs := Except.ok.inj hok
    subst hs
    refine ⟨by simp only [List.length_map, List.length_range]; rfl,
      by simp only [List.length_map, List.length_range], ?_, ?_, ?_, ?_⟩
    · intro row hrow
      simp only [List.mem_map] at hrow
      obtain ⟨k, _, rfl⟩ := hrow
      simp only [List.length_map, List.length_range]
    · simp only [List.length_map, List.length_range]
      exact numWindowsZ_toNat _ _ _ hlen
    · show ((List.range (freqBins windowSize)).map
        fun i : ℕ => (i : ℚ) * sfreq / windowSize).Pairwise (· < ·)
      rw [List.pairwise_map]
      refine List.Pairwise.imp ?_ (List.pairwise_lt_range _)
      intro a b hab
      exact (div_lt_div_iff_of_pos_right hwQ).mpr
        (mul_lt_mul_of_pos_right (by exact_mod_cast hab) (by exact_mod_cast hsf))
    · intro q hq
      simp only [List.mem_map, List.mem_range] at hq
      obtain ⟨i, hi, rfl⟩ := hq
      have h2i : 2 * i ≤ windowSize := by
        unfold freqBins at hi
        omega
      have h2iQ : (2 * i : ℚ) ≤ windowSize := by exact_mod_cast h2i
      rw [div_le_div_iff₀ hwQ (by norm_num : (0:ℚ) < 2)]
      have hsfQ : (0 : ℚ) ≤ (sfreq : ℚ) := by positivity
      calc (i : ℚ) * sfreq * 2 = (2 * i) * sfreq := by ring
        _ ≤ (windowSize : ℚ) * sfreq := mul_le_mul_of_nonneg_right h2iQ hsfQ
        _ = (sfreq : ℚ) * windowSize := by ring
  · have hhop : hopSize 256 (1/2) = 128 := by norm_num [hopSize]
    have h1 : 0 < hopSize 256 (1/2) := by rw [hhop]; norm_num
    have h3 : (numWindowsZ (List.replicate 2500 (0:ℝ)).length 256
        (hopSize 256 (1/2)).toNat).toNat = 18 := by
      simp only [List.length_replicate]
      rw [hhop]
      decide
    have h2 : 0 ≤ numWindowsZ (List.replicate 2500 (0:ℝ)).length 256
        (hopSize 256 (1/2)).toNat := by
      simp only [List.length_replicate]
      rw [hhop]
      decide
    refine ⟨_, generateSpectrogram_ok _ 250 256 (1/2) h1 h2, ?_, ?_, ?_⟩
    · simp only [List.length_map, List.length_range]
      norm_num [freqBins]
    · simp only [List.length_map, List.length_range, h3]
    · show ((List.range (freqBins 256)).map
        fun i : ℕ => (i : ℚ) * 250 / 256).getD 128 0 = 125
      rw [List.getD_eq_getElem?_getD, List.getElem?_map,
        List.getElem?_range (show 128 < freqBins 256 by norm_num [freqBins])]
      norm_num
  · have hhop : hopSize 256 (1/2) = 128 := by norm_num [hopSize]
    have h1 : 0 < hopSize 256 (1/2) := by rw [hhop]; norm_num
    have h3 : (numWindowsZ (List.replicate 256 (0:ℝ)).length 256
        (hopSize 256 (1/2)).toNat).toNat = 1 := by
      simp only [List.length_replicate]
      rw [hhop]
      decide
    have h2 : 0 ≤ numWindowsZ (List.replicate 256 (0:ℝ)).length 256
        (hopSize 256 (1/2)).toNat := by
      simp only [List.length_replicate]
      rw [hhop]
      decide
    refine ⟨_, generateSpectrogram_ok _ 250 256 (1/2) h1 h2, ?_⟩
    simp only [List.length_map, List.length_range, h3]

/-- Witness for C5: the universally quantified shape facts applied at the
2500-sample zero buffer, `samplingRate = 250`, `windowSize = 256`,
`overlap = 0.5`. -/
theorem C5_spectrogram_shape_witness :
    ((0:ℕ) < 250 ∧ (256:ℕ) ≤ (List.replicate 2500 (0:ℝ)).length ∧
      0 < hopSize 256 (1/2)) ∧
    (∃ s, generateSpectrogram (List.replicate 2500 (0:ℝ)) 250 256 (1/2) = .ok s ∧
      s.frequencies.Pairwise (· < ·) ∧ ∀ q ∈ s.frequencies, q ≤ (250 : ℚ) / 2) := by
  have h1 : 0 < hopSize 256 (1/2) := by norm_num [hopSize]
  refine ⟨⟨by norm_num, by rw [List.length_replicate]; norm_num, h1⟩, ?_⟩
  obtain ⟨s, hs, -, -, -⟩ := C5_spectrogram_shape.2.1
  obtain ⟨-, -, -, -, hp, hb⟩ :=
    C5_spectrogram_shape.1 (List.replicate 2500 (0:ℝ)) 250 256 (1/2) s
      (by norm_num) (by rw [List.length_replicate]; norm_num) h1 hs
  exact ⟨s, hs, hp, hb⟩

/-- C7: entry `[k][w]` of the power matrix equals
`log10(real² + imag² + 1e-10)` where `real`/`imag` are the direct DFT sums
over the slice `[w·hopSize, w·hopSize + windowSize)` after multiplying
sample `n` of the slice by the Hann factor
`0.5 − 0.5·cos(2π n / (windowSize − 1))`. -/
theorem C7_power_formula (data : List ℝ) (sfreq windowSize : ℕ) (overlap : ℚ)
    (s : SpectrogramData) (k w : ℕ)
    (hlen : windowSize ≤ data.length)
    (hhop : 0 < hopSize windowSize overlap)
    (hok : generateSpectrogram data sfreq windowSize overlap = .ok s)
    (hk : k < freqBins windowSize)
    (hw : w < (numWindowsZ data.length windowSize
      (hopSize windowSize overlap).toNat).toNat) :
    (s.power.getD k []).getD w 0 =
      Real.logb 10 (
        (∑ n in Finset.range windowSize,
          (data.getD (w * (hopSize windowSize overlap).toNat + n) 0 *
            (0.5 - 0.5 * Real.cos (2 * π * n / ((windowSize : ℝ) - 1)))) *
          Real.cos (-(2 * π * k * n) / windowSize)) ^ 2 +
        (∑ n in Finset.range windowSize,
          (data.getD (w * (hopSize windowSize overlap).toNat + n) 0 *
            (0.5 - 0.5 * Real.cos (2 * π * n / ((windowSize : ℝ) - 1)))) *
          Real.sin (-(2 * π * k * n) / windowSize)) ^ 2 + 1e-10) := by
  have h2 : 0 ≤ numWindowsZ data.length windowSize (hopSize windowSize overlap).toNat :=
    numWindowsZ_nonneg _ _ _ hlen
  rw [generateSpectrogram_ok data sfreq windowSize overlap hhop h2] at hok
  have hs := (Except.ok.inj hok).symm
  subst hs
  show (((List.range (freqBins windowSize)).map fun k =>
      (List.range ((numWindowsZ data.length windowSize
          (hopSize windowSize overlap).toNat).toNat)).map
        fun w => powerEntry data windowSize (hopSize windowSize overlap).toNat k w).getD
      k []).getD w 0 = _
  rw [show ((List.range (freqBins windowSize)).map fun k =>
      (List.range ((numWindowsZ data.length windowSize
          (hopSize windowSize overlap).toNat).toNat)).map
        fun w => powerEntry data windowSize
          (hopSize windowSize overlap).toNat k w).getD k [] =
      (List.range ((numWindowsZ data.length windowSize
          (hopSize windowSize overlap).toNat).toNat)).map
        fun w => powerEntry data windowSize
          (hopSize windowSize overlap).toNat k w from by
    rw [List.getD_eq_getElem?_getD, List.getElem?_map, List.getElem?_range hk]
    simp]
  rw [show ((List.range ((numWindowsZ data.length windowSize
      (hopSize windowSize overlap).toNat).toNat)).map
        fun w => powerEntry data windowSize
          (hopSize windowSize overlap).toNat k w).getD w 0 =
      powerEntry data windowSize (hopSize windowSize overlap).toNat k w from by
    rw [List.getD_eq_getElem?_getD, List.getElem?_map, List.getElem?_range hw]
    simp]
  have hbound : w * (hopSize windowSize overlap).toNat + windowSize ≤ data.length :=
    start_add_window_le data.length windowSize (hopSize windowSize overlap).toNat w hlen hw
  have hslice : ((data.drop (w * (hopSize windowSize overlap).toNat)).take
      windowSize).length = windowSize := slice_length _ _ _ hbound
  unfold powerEntry
  have hterm : ∀ n ∈ Finset.range windowSize,
      (hannWindowed ((data.drop (w * (hopSize windowSize overlap).toNat)).take
          windowSize) windowSize).getD n 0 =
        data.getD (w * (hopSize windowSize overlap).toNat + n) 0 *
          (0.5 - 0.5 * Real.cos (2 * π * n / ((windowSize : ℝ) - 1))) := by
    intro n hn
    have hn' : n < windowSize := Finset.mem_range.mp hn
    rw [hannWindowed_getD
        ((data.drop (w * (hopSize windowSize overlap).toNat)).take windowSize)
        windowSize n (by rw [hslice]; exact hn'),
      slice_getD data (w * (hopSize windowSize overlap).toNat) windowSize n hn']
  have hR : dftReal (hannWindowed ((data.drop
        (w * (hopSize windowSize overlap).toNat)).take windowSize) windowSize)
        windowSize k =
      ∑ n in Finset.range windowSize,
        (data.getD (w * (hopSize windowSize overlap).toNat + n) 0 *
          (0.5 - 0.5 * Real.cos (2 * π * n / ((windowSize : ℝ) - 1)))) *
        Real.cos (-(2 * π * k * n) / windowSize) := by
    unfold dftReal
    rw [hannWindowed_length, hslice]
    exact Finset.sum_congr rfl fun n hn => by rw [hterm n hn]
  have hI : dftImag (hannWindowed ((data.drop
        (w * (hopSize windowSize overlap).toNat)).take windowSize) windowSize)
        windowSize k =
      ∑ n in Finset.range windowSize,
        (data.getD (w * (hopSize windowSize overlap).toNat + n) 0 *
          (0.5 - 0.5 * Real.cos (2 * π * n / ((windowSize : ℝ) - 1)))) *
        Real.sin (-(2 * π * k * n) / windowSize) := by
    unfold dftImag
    rw [hannWindowed_length, hslice]
    exact Finset.sum_congr rfl fun n hn => by rw [hterm n hn]
  rw [hR, hI]
  congr 1
  ring

/-- Witness for C7 at the buffer `[1, 2]`, `windowSize = 2`,
`overlap = 0.5`, frequency bin 0, window 0. -/
theorem C7_power_formula_witness :
    ((2:ℕ) ≤ ([(1:ℝ), 2]).length ∧ 0 < hopSize 2 (1/2) ∧ 0 < freqBins 2 ∧
      0 < (numWindowsZ ([(1:ℝ), 2]).length 2 (hopSize 2 (1/2)).toNat).toNat) ∧
    (∃ s, generateSpectrogram [(1:ℝ), 2] 250 2 (1/2) = .ok s ∧
      (s.power.getD 0 []).getD 0 0 =
        Real.logb 10 (
          (∑ n in Finset.range 2,
            (([(1:ℝ), 2]).getD (0 * (hopSize 2 (1/2)).toNat + n) 0 *
              (0.5 - 0.5 * Real.cos (2 * π * n / (((2:ℕ) : ℝ) - 1)))) *
            Real.cos (-(2 * π * ((0:ℕ) : ℝ) * n) / ((2:ℕ) : ℝ))) ^ 2 +
          (∑ n in Finset.range 2,
            (([(1:ℝ), 2]).getD (0 * (hopSize 2 (1/2)).toNat + n) 0 *
              (0.5 - 0.5 * Real.cos (2 * π * n / (((2:ℕ) : ℝ) - 1)))) *
            Real.sin (-(2 * π * ((0:ℕ) : ℝ) * n) / ((2:ℕ) : ℝ))) ^ 2 + 1e-10)) := by
  have hhop : hopSize 2 (1/2) = 1 := by norm_num [hopSize]
  have h1 : 0 < hopSize 2 (1/2) := by rw [hhop]; norm_num
  have hlen : (2:ℕ) ≤ ([(1:ℝ), 2]).length := by simp
  have hw : 0 < (numWindowsZ ([(1:ℝ), 2]).length 2 (hopSize 2 (1/2)).toNat).toNat := by
    show 0 < (numWindowsZ 2 2 (hopSize 2 (1/2)).toNat).toNat
    rw [hhop]
    decide
  have hk : 0 < freqBins 2 := by norm_num [freqBins]
  have h2 : 0 ≤ numWindowsZ ([(1:ℝ), 2]).length 2 (hopSize 2 (1/2)).toNat :=
    numWindowsZ_nonneg _ _ _ hlen
  refine ⟨⟨hlen, h1, hk, hw⟩,
    ⟨_, generateSpectrogram_ok [(1:ℝ), 2] 250 2 (1/2) h1 h2, ?_⟩⟩
  exact C7_power_formula [(1:ℝ), 2] 250 2 (1/2) _ 0 0 hlen h1
    (generateSpectrogram_ok [(1:ℝ), 2] 250 2 (1/2) h1 h2) hk hw

/-- C4: the frequency-domain features at indices 6–63 use the literal
reference rate 250 (`Math.cos((2π f j) / 250)` with `f = ((i-6)/58)·50`),
and the sampling rate stored alongside the buffer is never read, so the
feature vector is identical for any two sampling-rate arguments. -/
theorem C4_rate_ignored (data : List ℝ) (r1 r2 : ℝ) (i : ℕ)
    (h6 : 6 ≤ i) (h64 : i < 64) :
    predictFeatures ⟨data, r1⟩ = predictFeatures ⟨data, r2⟩ ∧
    (predictFeatures ⟨data, r1⟩).getD i 0 =
      (∑ j in Finset.range data.length,
        Real.cos (2 * π * (((i : ℝ) - 6) / 58 * 50) * j / 250) * data.getD j 0) /
        data.length := by
  refine ⟨rfl, ?_⟩
  have hp : predictFeatures ⟨data, r1⟩ = prepareInput data := rfl
  rw [hp, prepareInput_getD data i (lt_trans h64 (by norm_num))]
  unfold featureAt
  have t0 : i ≠ 0 := by omega
  have t1 : i ≠ 1 := by omega
  have t2 : i ≠ 2 := by omega
  have t3 : i ≠ 3 := by omega
  have t4 : i ≠ 4 := by omega
  have t5 : i ≠ 5 := by omega
  rw [if_neg t0, if_neg t1, if_neg t2, if_neg t3, if_neg t4, if_neg t5,
    if_pos h64]

/-- Witness for C4 at the buffer `[1, 2]`, feature index 6, and sampling
rates 100 and 200. -/
theorem C4_rate_ignored_witness :
    ((6:ℕ) ≤ 6 ∧ (6:ℕ) < 64) ∧
    (predictFeatures ⟨[(1:ℝ), 2], 100⟩ = predictFeatures ⟨[(1:ℝ), 2], 200⟩ ∧
      (predictFeatures ⟨[(1:ℝ), 2], 100⟩).getD 6 0 =
        (∑ j in Finset.range ([(1:ℝ), 2]).length,
          Real.cos (2 * π * ((((6:ℕ) : ℝ) - 6) / 58 * 50) * j / 250) *
            ([(1:ℝ), 2]).getD j 0) / ([(1:ℝ), 2]).length) :=
  ⟨⟨le_refl 6, by norm_num⟩,
    C4_rate_ignored [(1:ℝ), 2] 100 200 6 (le_refl 6) (by norm_num)⟩

/-- C2, counterexample: the time-domain windows of `prepareInput` start at
`⌊k·N/64⌋`, not `k·⌊N/64⌋`, and need not span the buffer.  For `N = 65`
every window ends at or before index 64, so the last sample belongs to no
window: on the buffer of 64 zeros followed by a single `1`, every windowed
mean (in particular entry 127) is `0` although the buffer sums to `1` —
impossible if the 64 windows partitioned the buffer. -/
theorem C2_windows_leave_gap :
    (∀ k < 64, windowEnd 65 k ≤ 64) ∧
    featureAt (List.replicate 64 (0:ℝ) ++ [1]) 127 = 0 ∧
    (List.replicate 64 (0:ℝ) ++ [1]).getD 64 0 = 1 ∧
    (List.replicate 64 (0:ℝ) ++ [1]).length = 65 := by
  refine ⟨by decide, ?_, ?_, by simp⟩
  · unfold featureAt
    have u0 : (127:ℕ) ≠ 0 := by omega
    have u1 : (127:ℕ) ≠ 1 := by omega
    have u2 : (127:ℕ) ≠ 2 := by omega
    have u3 : (127:ℕ) ≠ 3 := by omega
    have u4 : (127:ℕ) ≠ 4 := by omega
    have u5 : (127:ℕ) ≠ 5 := by omega
    have u6 : ¬ (127:ℕ) < 64 := by omega
    have u7 : (127:ℕ) < 128 := by omega
    rw [if_neg u0, if_neg u1, if_neg u2, if_neg u3, if_neg u4, if_neg u5,
      if_neg u6, if_pos u7]
    have hlen : (List.replicate 64 (0:ℝ) ++ [1]).length = 65 := by simp
    rw [hlen]
    have hs : windowStart 65 (127 - 64) = 63 := by decide
    have he : windowEnd 65 (127 - 64) = 64 := by decide
    rw [hs, he]
    have hsum : ∀ j ∈ Finset.Ico 63 64,
        (List.replicate 64 (0:ℝ) ++ [1]).getD j 0 = 0 := by
      intro j hj
      have hj' : j = 63 := by simpa using hj
      subst hj'
      rw [List.getD_append _ _ _ _ (by simp)]
      exact getD_replicate_zero 64 63
    rw [Finset.sum_congr rfl hsum]
    simp
  · rw [List.getD_append_right _ _ _ _ (by simp)]
    simp

/-- C2, amended: feature entry `64 + k` is the arithmetic mean of the
samples in `[⌊k·N/64⌋, min(⌊k·N/64⌋ + ⌊N/64⌋, N))`; when `64 ∣ N` these
windows coincide with the claimed partition
`[k·(N/64), (k+1)·(N/64))`, which is disjoint and spans the buffer, but
for general `N` the starts differ from `k·⌊N/64⌋` and the windows need
not cover every sample. -/
theorem C2_window_mean (data : List ℝ) (k : ℕ) (hk : k < 64) :
    featureAt data (64 + k) =
      (∑ j in Finset.Ico (windowStart data.length k) (windowEnd data.length k),
        data.getD j 0) /
        ((windowEnd data.length k - windowStart data.length k : ℕ) : ℝ) ∧
    (64 ∣ data.length →
      windowStart data.length k = k * (data.length / 64) ∧
      windowEnd data.length k = (k + 1) * (data.length / 64)) := by
  constructor
  · unfold featureAt
    have v0 : 64 + k ≠ 0 := by omega
    have v1 : 64 + k ≠ 1 := by omega
    have v2 : 64 + k ≠ 2 := by omega
    have v3 : 64 + k ≠ 3 := by omega
    have v4 : 64 + k ≠ 4 := by omega
    have v5 : 64 + k ≠ 5 := by omega
    have v6 : ¬ 64 + k < 64 := by omega
    have v7 : 64 + k < 128 := by omega
    rw [if_neg v0, if_neg v1, if_neg v2, if_neg v3, if_neg v4, if_neg v5,
      if_neg v6, if_pos v7]
    have hkk : 64 + k - 64 = k := by omega
    rw [hkk]
  · intro hdvd
    have hstart : windowStart data.length k = k * (data.length / 64) := by
      unfold windowStart
      exact Nat.mul_div_assoc k hdvd
    refine ⟨hstart, ?_⟩
    unfold windowEnd
    rw [hstart]
    obtain ⟨m, hm⟩ := hdvd
    rw [hm, Nat.mul_div_cancel_left m (by norm_num)]
    have h1 : k * m + m = (k + 1) * m := by ring
    rw [h1]
    exact min_eq_left (Nat.mul_le_mul_right m (by omega))

/-- Witness for the amended C2 at the 128-sample buffer of all ones
(`N = 128`, `k = 1`). -/
theorem C2_window_mean_witness :
    ((1:ℕ) < 64) ∧
    (featureAt (List.replicate 128 (1:ℝ)) (64 + 1) =
      (∑ j in Finset.Ico (windowStart (List.replicate 128 (1:ℝ)).length 1)
          (windowEnd (List.replicate 128 (1:ℝ)).length 1),
        (List.replicate 128 (1:ℝ)).getD j 0) /
        ((windowEnd (List.replicate 128 (1:ℝ)).length 1 -
          windowStart (List.replicate 128 (1:ℝ)).length 1 : ℕ) : ℝ) ∧
      (64 ∣ (List.replicate 128 (1:ℝ)).length →
        windowStart (List.replicate 128 (1:ℝ)).length 1 =
          1 * ((List.replicate 128 (1:ℝ)).length / 64) ∧
        windowEnd (List.replicate 128 (1:ℝ)).length 1 =
          (1 + 1) * ((List.replicate 128 (1:ℝ)).length / 64))) :=
  ⟨by norm_num, C2_window_mean (List.replicate 128 (1:ℝ)) 1 (by norm_num)⟩

/-- C8: `aggregate` returns, for each named band with inclusive range
`[lo, hi]` (delta 0.5–4, theta 4–8, alpha 8–13, beta 13–30, gamma 30–100),
the arithmetic mean of all power values in the rows whose frequency lies
in `[lo, hi]`, flattened across all time windows; a band with zero
matching frequency bins yields exactly `0`. -/
theorem C8_band_power (s : SpectrogramData) (lo hi : ℚ)
    (hl : s.power.length = s.frequencies.length) :
    ((frequencyBands s).delta = getBandPower s (1/2) 4 ∧
      (frequencyBands s).theta = getBandPower s 4 8 ∧
      (frequencyBands s).alpha = getBandPower s 8 13 ∧
      (frequencyBands s).beta = getBandPower s 13 30 ∧
      (frequencyBands s).gamma = getBandPower s 30 100) ∧
    getBandPower s lo hi =
      (if (s.frequencies.filter fun q => decide (lo ≤ q ∧ q ≤ hi)).isEmpty then 0
       else
        ((((s.frequencies.zip s.power).filter fun p =>
            decide (lo ≤ p.1 ∧ p.1 ≤ hi)).map Prod.snd).flatten).sum /
        ((((s.frequencies.zip s.power).filter fun p =>
            decide (lo ≤ p.1 ∧ p.1 ≤ hi)).map Prod.snd).flatten).length) := by
  refine ⟨⟨rfl, rfl, rfl, rfl, rfl⟩, ?_⟩
  have hfilter : s.frequencies.filter (fun q => decide (lo ≤ q ∧ q ≤ hi)) =
      ((s.frequencies.enum.filter fun p =>
        decide (lo ≤ p.2 ∧ p.2 ≤ hi)).map Prod.snd) := by
    conv_lhs => rw [← List.enumFrom_map_snd 0 s.frequencies]
    rw [List.filter_map]
    rfl
  have hempty : (bandIndices s.frequencies lo hi).isEmpty =
      (s.frequencies.filter fun q => decide (lo ≤ q ∧ q ≤ hi)).isEmpty := by
    rw [hfilter]
    unfold bandIndices
    generalize (s.frequencies.enum.filter fun p =>
      decide (lo ≤ p.2 ∧ p.2 ≤ hi)) = l
    cases l <;> rfl
  have hmain : ((s.power.enum.filter fun p =>
      decide (p.1 ∈ bandIndices s.frequencies lo hi)).map Prod.snd) =
      ((s.frequencies.zip s.power).filter fun p =>
        decide (lo ≤ p.1 ∧ p.1 ≤ hi)).map Prod.snd := by
    rw [show s.power.enum = s.power.enumFrom 0 from rfl]
    refine filter_enumFrom_zip lo hi
      (fun m => decide (m ∈ bandIndices s.frequencies lo hi))
      s.frequencies s.power 0 hl ?_
    intro j hj
    rw [decide_eq_decide, Nat.zero_add, mem_bandIndices]
    exact and_iff_right hj
  unfold getBandPower
  rw [hempty, hmain]

/-- Witness for C8 at the two-bin spectrogram with frequencies `1` and `5`
and power rows `[2]`, `[4]`, on the theta band `[4, 8]`. -/
theorem C8_band_power_witness :
    ((⟨[1, 5], [0], [[2], [4]]⟩ : SpectrogramData).power.length =
      (⟨[1, 5], [0], [[2], [4]]⟩ : SpectrogramData).frequencies.length) ∧
    (((frequencyBands ⟨[1, 5], [0], [[2], [4]]⟩).delta =
        getBandPower ⟨[1, 5], [0], [[2], [4]]⟩ (1/2) 4 ∧
      (frequencyBands ⟨[1, 5], [0], [[2], [4]]⟩).theta =
        getBandPower ⟨[1, 5], [0], [[2], [4]]⟩ 4 8 ∧
      (frequencyBands ⟨[1, 5], [0], [[2], [4]]⟩).alpha =
        getBandPower ⟨[1, 5], [0], [[2], [4]]⟩ 8 13 ∧
      (frequencyBands ⟨[1, 5], [0], [[2], [4]]⟩).beta =
        getBandPower ⟨[1, 5], [0], [[2], [4]]⟩ 13 30 ∧
      (frequencyBands ⟨[1, 5], [0], [[2], [4]]⟩).gamma =
        getBandPower ⟨[1, 5], [0], [[2], [4]]⟩ 30 100) ∧
    getBandPower ⟨[1, 5], [0], [[2], [4]]⟩ 4 8 =
      (if (((⟨[1, 5], [0], [[2], [4]]⟩ : SpectrogramData).frequencies.filter
            fun q => decide ((4:ℚ) ≤ q ∧ q ≤ 8)).isEmpty) then 0
       else
        (((((⟨[1, 5], [0], [[2], [4]]⟩ : SpectrogramData).frequencies.zip
              (⟨[1, 5], [0], [[2], [4]]⟩ : SpectrogramData).power).filter fun p =>
            decide ((4:ℚ) ≤ p.1 ∧ p.1 ≤ 8)).map Prod.snd).flatten).sum /
        (((((⟨[1, 5], [0], [[2], [4]]⟩ : SpectrogramData).frequencies.zip
              (⟨[1, 5], [0], [[2], [4]]⟩ : SpectrogramData).power).filter fun p =>
            decide ((4:ℚ) ≤ p.1 ∧ p.1 ≤ 8)).map Prod.snd).flatten).length)) :=
  ⟨rfl, C8_band_power ⟨[1, 5], [0], [[2], [4]]⟩ 4 8 rfl⟩

/-- C9: `extract` always returns exactly 128 values, and entries 0–5 are
the mean, population standard deviation (divisor `N`), variance, minimum,
maximum and range of the raw, unconditioned input buffer. -/
theorem C9_feature_stats (data : List ℝ) (samplingRate : ℝ) (hne : data ≠ []) :
    (predictFeatures ⟨data, samplingRate⟩).length = 128 ∧
    (predictFeatures ⟨data, samplingRate⟩).getD 0 0 = data.sum / data.length ∧
    (predictFeatures ⟨data, samplingRate⟩).getD 2 0 =
      (data.map fun v => (v - data.sum / data.length) ^ 2).sum / data.length ∧
    (predictFeatures ⟨data, samplingRate⟩).getD 1 0 =
      Real.sqrt ((predictFeatures ⟨data, samplingRate⟩).getD 2 0) ∧
    ((predictFeatures ⟨data, samplingRate⟩).getD 3 0 ∈ data ∧
      ∀ x ∈ data, (predictFeatures ⟨data, samplingRate⟩).getD 3 0 ≤ x) ∧
    ((predictFeatures ⟨data, samplingRate⟩).getD 4 0 ∈ data ∧
      ∀ x ∈ data, x ≤ (predictFeatures ⟨data, samplingRate⟩).getD 4 0) ∧
    (predictFeatures ⟨data, samplingRate⟩).getD 5 0 =
      (predictFeatures ⟨data, samplingRate⟩).getD 4 0 -
        (predictFeatures ⟨data, samplingRate⟩).getD 3 0 := by
  have hp : predictFeatures ⟨data, samplingRate⟩ = prepareInput data := rfl
  rw [hp]
  have h0 : (prepareInput data).getD 0 0 = listMean data := by
    rw [prepareInput_getD data 0 (by norm_num)]; simp [featureAt]
  have h1 : (prepareInput data).getD 1 0 =
      Real.sqrt ((data.map fun v => (v - listMean data) ^ 2).sum / data.length) := by
    rw [prepareInput_getD data 1 (by norm_num)]; simp [featureAt]
  have h2 : (prepareInput data).getD 2 0 =
      (data.map fun v => (v - listMean data) ^ 2).sum / data.length := by
    rw [prepareInput_getD data 2 (by norm_num)]; simp [featureAt]
  have h3 : (prepareInput data).getD 3 0 = jsMin data := by
    rw [prepareInput_getD data 3 (by norm_num)]; simp [featureAt]
  have h4 : (prepareInput data).getD 4 0 = jsMax data := by
    rw [prepareInput_getD data 4 (by norm_num)]; simp [featureAt]
  have h5 : (prepareInput data).getD 5 0 = jsMax data - jsMin data := by
    rw [prepareInput_getD data 5 (by norm_num)]; simp [featureAt]
  refine ⟨by simp [prepareInput], ?_, ?_, ?_, ?_, ?_, ?_⟩
  · rw [h0]; rfl
  · rw [h2]; rfl
  · rw [h1, h2]
  · rw [h3]; exact ⟨jsMin_mem data hne, fun x hx => jsMin_le_mem data x hx⟩
  · rw [h4]; exact ⟨jsMax_mem data hne, fun x hx => mem_le_jsMax data x hx⟩
  · simp only [h3, h4, h5]

/-- Witness for C9 at the buffer `[1, 3]` and `samplingRate = 250`. -/
theorem C9_feature_stats_witness :
    ([(1:ℝ), 3] ≠ []) ∧
    ((predictFeatures ⟨[(1:ℝ), 3], 250⟩).length = 128 ∧
      (predictFeatures ⟨[(1:ℝ), 3], 250⟩).getD 0 0 =
        ([(1:ℝ), 3]).sum / ([(1:ℝ), 3]).length ∧
      (predictFeatures ⟨[(1:ℝ), 3], 250⟩).getD 2 0 =
        (([(1:ℝ), 3]).map fun v =>
          (v - ([(1:ℝ), 3]).sum / ([(1:ℝ), 3]).length) ^ 2).sum / ([(1:ℝ), 3]).length ∧
      (predictFeatures ⟨[(1:ℝ), 3], 250⟩).getD 1 0 =
        Real.sqrt ((predictFeatures ⟨[(1:ℝ), 3], 250⟩).getD 2 0) ∧
      ((predictFeatures ⟨[(1:ℝ), 3], 250⟩).getD 3 0 ∈ [(1:ℝ), 3] ∧
        ∀ x ∈ [(1:ℝ), 3], (predictFeatures ⟨[(1:ℝ), 3], 250⟩).getD 3 0 ≤ x) ∧
      ((predictFeatures ⟨[(1:ℝ), 3], 250⟩).getD 4 0 ∈ [(1:ℝ), 3] ∧
        ∀ x ∈ [(1:ℝ), 3], x ≤ (predictFeatures ⟨[(1:ℝ), 3], 250⟩).getD 4 0) ∧
      (predictFeatures ⟨[(1:ℝ), 3], 250⟩).getD 5 0 =
        (predictFeatures ⟨[(1:ℝ), 3], 250⟩).getD 4 0 -
          (predictFeatures ⟨[(1:ℝ), 3], 250⟩).getD 3 0) :=
  ⟨by simp, C9_feature_stats [(1:ℝ), 3] 250 (by simp)⟩

/-- Witness for C10 at `samplingRate = 250` and the one-sample buffer. -/
theorem C10_divisor_zero_iff_witness :
    ([(1:ℝ)] ≠ []) ∧
    (((∀ i < [(1:ℝ)].length, bpEnd [(1:ℝ)].length 250 i - bpStart 250 i ≠ 0) ↔
        2 ≤ 250 / 10) ∧
      (2 ≤ 250 / 10 ↔ 20 ≤ 250) ∧
      (250 < 20 →
        ∀ i < [(1:ℝ)].length, bpEnd [(1:ℝ)].length 250 i - bpStart 250 i = 0)) :=
  ⟨by simp, C10_divisor_zero_iff 250 [(1:ℝ)] (by simp)⟩

end Coderush
